import Mathlib

/-!
Verification of the vue-map-drawing interactive editing engine.

This file gives a shallow embedding of the engine's core components —
the geometry utilities (src/utils/geometry.js), the SnapEngine
(src/snapping/SnapEngine.js), the HistoryManager (src/core/HistoryManager.js)
and the drawing/editing slice of the DrawingManager (src/core/DrawingManager.js) —
and proves properties of that embedding.

Modelling conventions:
* JavaScript numbers are modelled as exact rationals (ℚ).  The transcendental
  JavaScript Math functions used by the code (Math.PI, Math.sin, Math.cos,
  Math.sqrt, Math.atan2) are modelled as components of an abstract `MathEnv`
  record: every theorem below holds for an arbitrary environment, so nothing
  depends on the numeric behaviour of those functions.
* JavaScript `Map` objects (insertion-ordered) are modelled as association
  lists; `Map.set` updates in place or appends, `Map.delete` filters.
* DOM / Google-Maps side effects (marker objects, labels, cursors) are
  modelled only insofar as the engine state observes them (marker visibility,
  applied style tag); the emitted event stream is returned explicitly.
-/

namespace VMD

/-- Geographic coordinate in degrees, `{lat, lng}` in the source. -/
structure Point where
  lat : ℚ
  lng : ℚ
deriving DecidableEq

instance : Inhabited Point := ⟨⟨0, 0⟩⟩

/-- A point in projected (world/pixel) space, `{x, y}` in the source. -/
structure PixelPoint where
  x : ℚ
  y : ℚ
deriving DecidableEq

instance : Inhabited PixelPoint := ⟨⟨0, 0⟩⟩

/-- A directed edge of a registered shape, as produced by
`SnapEngine._getAllEdges`: `{start, end, shapeId}`.  The `end` field is
called `stop` here because `end` is a Lean keyword. -/
structure Edge where
  start : Point
  stop : Point
  shapeId : String
deriving DecidableEq

instance : Inhabited Edge := ⟨⟨default, default, ""⟩⟩

/-- Abstract model of the JavaScript Math library functions the source calls.
`piQ` stands for `Math.PI`, `sinQ`/`cosQ`/`sqrtQ` for `Math.sin`/`Math.cos`/
`Math.sqrt`, and `atan2Q x y` for `Math.atan2(x, y)`.  All results of these
float functions are rationals in the model; the theorems hold for every
environment. -/
structure MathEnv where
  piQ : ℚ
  sinQ : ℚ → ℚ
  cosQ : ℚ → ℚ
  sqrtQ : ℚ → ℚ
  atan2Q : ℚ → ℚ → ℚ

/-! ### Geometry utilities (src/utils/geometry.js) -/

/-- `toRadians(degrees) = degrees * (Math.PI / 180)`. -/
def toRadians (env : MathEnv) (degrees : ℚ) : ℚ :=
  degrees * (env.piQ / 180)

/-- `distanceLatLng(p1, p2)` — haversine distance with Earth radius
6,371,000 m. -/
def distanceLatLng (env : MathEnv) (p1 p2 : Point) : ℚ :=
  let lat1 := toRadians env p1.lat
  let lat2 := toRadians env p2.lat
  let deltaLat := toRadians env (p2.lat - p1.lat)
  let deltaLng := toRadians env (p2.lng - p1.lng)
  let a := env.sinQ (deltaLat / 2) * env.sinQ (deltaLat / 2) +
    env.cosQ lat1 * env.cosQ lat2 * env.sinQ (deltaLng / 2) * env.sinQ (deltaLng / 2)
  let c := 2 * env.atan2Q (env.sqrtQ a) (env.sqrtQ (1 - a))
  6371000 * c

/-- One summand of the `calculatePolygonArea` loop:
`toRadians(p2.lng - p1.lng) * (2 + Math.sin(toRadians(p1.lat)) + Math.sin(toRadians(p2.lat)))`. -/
def areaTerm (env : MathEnv) (p1 p2 : Point) : ℚ :=
  toRadians env (p2.lng - p1.lng) *
    (2 + env.sinQ (toRadians env p1.lat) + env.sinQ (toRadians env p2.lat))

/-- The accumulated `total` of the `calculatePolygonArea` loop: indices run
over `0 ≤ i < n` with partner `j = (i+1) % n`. -/
def areaSum (env : MathEnv) (coordinates : List Point) : ℚ :=
  ∑ i ∈ Finset.range coordinates.length,
    areaTerm env (coordinates.getD i default)
      (coordinates.getD ((i + 1) % coordinates.length) default)

/-- `Math.abs`: the absolute value, written out so that it evaluates by
kernel reduction on rationals. -/
def absQ (x : ℚ) : ℚ :=
  if x < 0 then -x else x

/-- `absQ` agrees with the lattice absolute value. -/
lemma absQ_eq_abs (x : ℚ) : absQ x = |x| := by
  unfold absQ
  split
  · rw [abs_of_neg (by assumption)]
  · rw [abs_of_nonneg (by linarith [not_lt.mp (by assumption : ¬ x < 0)])]

/-- `calculatePolygonArea(coordinates)` — returns 0 for fewer than 3 points,
otherwise `Math.abs(total * R * R / 2)` with `R = 6371000`. -/
def calculatePolygonArea (env : MathEnv) (coordinates : List Point) : ℚ :=
  if coordinates.length < 3 then 0
  else absQ (areaSum env coordinates * 6371000 * 6371000 / 2)

/-! ### SnapEngine (src/snapping/SnapEngine.js) -/

/-- The geometry the SnapEngine reads back from a registered google object
(`getPath` / `getBounds` / `getCenter` + `getRadius`). -/
inductive ShapeGeom where
  | polygon (path : List Point)
  | polyline (path : List Point)
  | rectangle (north south east west : ℚ)
  | circle (center : Point) (radius : ℚ)
deriving DecidableEq

/-- JavaScript `Map.set`: replace in place when the key exists (keeping its
insertion position), otherwise append. -/
def mapSet {α : Type} (l : List (String × α)) (k : String) (v : α) :
    List (String × α) :=
  if (l.lookup k).isSome then l.map (fun p => if p.1 = k then (k, v) else p)
  else l ++ [(k, v)]

/-- JavaScript `Map.delete`. -/
def mapDelete {α : Type} (l : List (String × α)) (k : String) :
    List (String × α) :=
  l.filter (fun p => ¬ p.1 = k)

/-- SnapEngine state: `enabled`, `threshold` (pixels) and the insertion-ordered
registry of shapes. -/
structure SnapState where
  enabled : Bool
  threshold : ℚ
  shapes : List (String × ShapeGeom)
deriving DecidableEq

/-- `SnapEngine.addShape(id, type, obj)`. -/
def snapAddShape (se : SnapState) (id : String) (g : ShapeGeom) : SnapState :=
  { se with shapes := mapSet se.shapes id g }

/-- `SnapEngine.removeShape(id)`. -/
def snapRemoveShape (se : SnapState) (id : String) : SnapState :=
  { se with shapes := mapDelete se.shapes id }

/-- The 36 approximation points of a registered circle:
`lat = c.lat + (r/111111)·sin(angle)`,
`lng = c.lng + (r/(111111·cos(c.lat·π/180)))·cos(angle)` with
`angle = (i/36)·2π`. -/
def circlePoints (env : MathEnv) (center : Point) (radius : ℚ) : List Point :=
  (List.range 36).map fun i =>
    let angle := ((i : ℚ) / 36) * 2 * env.piQ
    { lat := center.lat + (radius / 111111) * env.sinQ angle
      lng := center.lng +
        (radius / (111111 * env.cosQ (center.lat * env.piQ / 180))) * env.cosQ angle }

/-- Closed ring of edges over a point list: consecutive pairs wrapping
last→first (used for polygons and the circle approximation). -/
def ringEdges (id : String) (pts : List Point) : List Edge :=
  (List.range pts.length).map fun i =>
    { start := pts.getD i default
      stop := pts.getD ((i + 1) % pts.length) default
      shapeId := id }

/-- Edges contributed by one registered shape in `_getAllEdges`. -/
def shapeEdges (env : MathEnv) (id : String) (g : ShapeGeom) : List Edge :=
  match g with
  | .polygon path => ringEdges id path
  | .polyline path =>
      (List.range (path.length - 1)).map fun i =>
        { start := path.getD i default, stop := path.getD (i + 1) default, shapeId := id }
  | .rectangle north south east west =>
      let ne : Point := ⟨north, east⟩
      let sw : Point := ⟨south, west⟩
      let nw : Point := ⟨north, west⟩
      let se : Point := ⟨south, east⟩
      [⟨nw, ne, id⟩, ⟨ne, se, id⟩, ⟨se, sw, id⟩, ⟨sw, nw, id⟩]
  | .circle center radius => ringEdges id (circlePoints env center radius)

/-- `SnapEngine._getAllEdges(excludeId)`: edges of all registered shapes in
registration order, skipping the excluded shape id. -/
def getAllEdges (env : MathEnv) (shapes : List (String × ShapeGeom))
    (excludeId : Option String) : List Edge :=
  shapes.flatMap fun p => if excludeId = some p.1 then [] else shapeEdges env p.1 p.2

/-- Result of `_projectPointToSegment`: `{point, distance, t}`. -/
structure ProjResult where
  point : PixelPoint
  distance : ℚ
  t : ℚ
deriving DecidableEq

/-- `SnapEngine._projectPointToSegment(point, lineStart, lineEnd)` —
clamped scalar projection in pixel space; degenerate segments return the
start point with `t = 0`. -/
def projectPointToSegment (env : MathEnv) (point lineStart lineEnd : PixelPoint) :
    ProjResult :=
  let dx := lineEnd.x - lineStart.x
  let dy := lineEnd.y - lineStart.y
  let lengthSquared := dx * dx + dy * dy
  if lengthSquared = 0 then
    { point := lineStart
      distance := env.sqrtQ ((point.x - lineStart.x) ^ 2 + (point.y - lineStart.y) ^ 2)
      t := 0 }
  else
    let t := max 0 (min 1
      (((point.x - lineStart.x) * dx + (point.y - lineStart.y) * dy) / lengthSquared))
    let projected : PixelPoint := ⟨lineStart.x + t * dx, lineStart.y + t * dy⟩
    { point := projected
      distance := env.sqrtQ ((point.x - projected.x) ^ 2 + (point.y - projected.y) ^ 2)
      t := t }

/-- A snap query result `{point, distance, edge, t}`. -/
structure SnapResult where
  point : Point
  distance : ℚ
  edge : Edge
  t : ℚ
deriving DecidableEq

/-- World → pixel conversion at the current zoom: `world × 2^zoom`; `scale`
stands for `Math.pow(2, zoom)`. -/
def toPixel (scale : ℚ) (w : PixelPoint) : PixelPoint :=
  ⟨w.x * scale, w.y * scale⟩

/-- The projection of the cursor onto one edge, in pixel space, exactly as the
`findSnapPoint` loop body computes it.  `fromLL` models
`projection.fromLatLngToPoint`. -/
def edgeProj (env : MathEnv) (scale : ℚ) (fromLL : Point → PixelPoint)
    (cursor : Point) (e : Edge) : ProjResult :=
  projectPointToSegment env (toPixel scale (fromLL cursor))
    (toPixel scale (fromLL e.start)) (toPixel scale (fromLL e.stop))

/-- The pixel distance of the cursor to one edge as computed by the
`findSnapPoint` loop. -/
def edgeDistance (env : MathEnv) (scale : ℚ) (fromLL : Point → PixelPoint)
    (cursor : Point) (e : Edge) : ℚ :=
  (edgeProj env scale fromLL cursor e).distance

/-- One iteration of the `findSnapPoint` edge loop.  The accumulator carries
`(bestSnap, minDistance, conversionCount)`; `conversionCount` counts the
`fromLatLngToPoint` / `fromPointToLatLng` calls performed so far (2 per edge,
plus 1 when a new best is converted back).  `toLL` models
`projection.fromPointToLatLng`. -/
def snapStep (env : MathEnv) (scale : ℚ) (fromLL : Point → PixelPoint)
    (toLL : PixelPoint → Point) (cursor : Point)
    (acc : Option SnapResult × ℚ × ℕ) (edge : Edge) :
    Option SnapResult × ℚ × ℕ :=
  let projected := edgeProj env scale fromLL cursor edge
  if projected.distance < acc.2.1 then
    let projectedWorld : PixelPoint := ⟨projected.point.x / scale, projected.point.y / scale⟩
    (some { point := toLL projectedWorld
            distance := projected.distance
            edge := edge
            t := projected.t },
      projected.distance, acc.2.2 + 3)
  else
    (acc.1, acc.2.1, acc.2.2 + 2)

/-- `SnapEngine.findSnapPoint(point, excludeShapeId)`.  Returns the snap
result (or none) together with the number of coordinate conversions
performed.  Disabled engine or empty registry returns before any conversion;
the minimum-distance tracker starts at the pixel threshold, so only edges
strictly closer than the threshold are ever kept, and only a strictly
smaller distance replaces the current best. -/
def findSnapPoint (env : MathEnv) (se : SnapState) (scale : ℚ)
    (fromLL : Point → PixelPoint) (toLL : PixelPoint → Point)
    (cursor : Point) (excludeShapeId : Option String) :
    Option SnapResult × ℕ :=
  if ¬ se.enabled ∨ se.shapes = [] then (none, 0)
  else
    let edges := getAllEdges env se.shapes excludeShapeId
    if edges = [] then (none, 0)
    else
      let r := edges.foldl (snapStep env scale fromLL toLL cursor) (none, se.threshold, 1)
      (r.1, r.2.2)

/-! ### HistoryManager (src/core/HistoryManager.js)

History entries are closures in the source.  The model records, for each
entry, its `type` tag and whether its `undo` / `redo` callback completes
normally (`true`) or throws (`false`); the callbacks are otherwise opaque to
the HistoryManager.  `undo`/`redo` return the success flag, the new state,
and the index of the entry whose callback was invoked (`none` when no
callback ran). -/

/-- A history entry `{type, undo, redo}` with the completion behaviour of its
two callbacks. -/
structure HistAction where
  typ : String
  undoOk : Bool
  redoOk : Bool
deriving DecidableEq

/-- HistoryManager state: `maxSteps`, the entry list and `currentIndex`
(`-1` = before all entries). -/
structure HistoryState where
  maxSteps : ℕ
  history : List HistAction
  currentIndex : ℤ
deriving DecidableEq

/-- The constructor: `maxSteps = options.maxSteps || 50` (so a missing or
zero option falls back to 50), empty history, index `-1`. -/
def mkHistory (maxStepsOpt : Option ℕ) : HistoryState :=
  { maxSteps :=
      match maxStepsOpt with
      | none => 50
      | some 0 => 50
      | some (n + 1) => n + 1
    history := []
    currentIndex := -1 }

/-- `get canUndo() { return this.currentIndex >= 0 }`. -/
def canUndo (s : HistoryState) : Bool :=
  decide (0 ≤ s.currentIndex)

/-- `get canRedo() { return this.currentIndex < this.history.length - 1 }`. -/
def canRedo (s : HistoryState) : Bool :=
  decide (s.currentIndex < (s.history.length : ℤ) - 1)

/-- `HistoryManager.push(action)`: truncate the redo branch when not at the
tail, append, advance the index, then evict the oldest entry (decrementing
the index) if the bound is exceeded. -/
def push (s : HistoryState) (action : HistAction) : HistoryState :=
  let hist :=
    if s.currentIndex < (s.history.length : ℤ) - 1 then
      s.history.take (s.currentIndex + 1).toNat
    else s.history
  let hist := hist ++ [action]
  let idx := s.currentIndex + 1
  if hist.length > s.maxSteps then
    { s with history := hist.drop 1, currentIndex := idx - 1 }
  else
    { s with history := hist, currentIndex := idx }

/-- `HistoryManager.undo()`: failure at the left boundary without touching any
callback; a throwing `undo` callback leaves the index unmoved and reports
failure; otherwise the index is decremented. -/
def undo (s : HistoryState) : Bool × HistoryState × Option ℤ :=
  if ¬ 0 ≤ s.currentIndex then (false, s, none)
  else
    match s.history.get? s.currentIndex.toNat with
    | none => (false, s, none)
    | some action =>
      if action.undoOk then
        (true, { s with currentIndex := s.currentIndex - 1 }, some s.currentIndex)
      else (false, s, some s.currentIndex)

/-- `HistoryManager.redo()`: failure at the tail without touching any
callback; otherwise the index advances first and is rolled back to its prior
value when the `redo` callback throws. -/
def redo (s : HistoryState) : Bool × HistoryState × Option ℤ :=
  if ¬ s.currentIndex < (s.history.length : ℤ) - 1 then (false, s, none)
  else
    let idx := s.currentIndex + 1
    match s.history.get? idx.toNat with
    | none => (false, s, none)
    | some action =>
      if action.redoOk then (true, { s with currentIndex := idx }, some idx)
      else (false, s, some idx)

/-- An abstract client operation on the HistoryManager. -/
inductive HistOp where
  | pushOp (a : HistAction)
  | undoOp
  | redoOp

/-- Apply one operation to the state. -/
def applyOp (s : HistoryState) : HistOp → HistoryState
  | .pushOp a => push s a
  | .undoOp => (undo s).2.1
  | .redoOp => (redo s).2.1

/-- Run a sequence of operations from a given state. -/
def runOps (s : HistoryState) (ops : List HistOp) : HistoryState :=
  ops.foldl applyOp s

/-- `undoTimes k` performs `undo()` `k` times, reporting whether every call
succeeded, and stops at the first failure (as a caller looping on the
returned flag would). -/
def undoTimes : ℕ → HistoryState → Bool × HistoryState
  | 0, s => (true, s)
  | k + 1, s =>
    let r := undo s
    if r.1 then undoTimes k r.2.1
    else (false, r.2.1)

/-- The HistoryManager state invariant: positive bound, length within the
bound, and `-1 ≤ currentIndex ≤ length - 1`. -/
def HistInv (s : HistoryState) : Prop :=
  1 ≤ s.maxSteps ∧ s.history.length ≤ s.maxSteps ∧
    -1 ≤ s.currentIndex ∧ s.currentIndex ≤ (s.history.length : ℤ) - 1

/-! ### DrawingManager (src/core/DrawingManager.js)

The embedding covers the drawing-session state machine, shape registration,
selection, and the vertex/midpoint drag protocol.  Pure rendering concerns
(marker icons, labels, preview artifacts, cursors) are reduced to what the
engine state observes: per-shape marker visibility and the applied style tag.
Every operation returns the new state together with the list of events the
EventBus would emit, in emission order. -/

/-- The four drawing types. -/
inductive DrawType where
  | polygon
  | polyline
  | circle
  | rectangle
deriving DecidableEq

/-- Rectangle bounds `{north, south, east, west}`. -/
structure Bounds where
  north : ℚ
  south : ℚ
  east : ℚ
  west : ℚ
deriving DecidableEq

/-- A completed shape's data record, mirroring the serialization contract
`{id, name, type, path?, center?, radius?, bounds?, area}`. -/
structure Shape where
  id : String
  name : String
  typ : DrawType
  path : Option (List Point)
  center : Option Point
  radius : Option ℚ
  bounds : Option Bounds
  area : ℚ
deriving DecidableEq

/-- Events emitted on the DrawingManager EventBus (payloads reduced to the
identifying data). -/
inductive Event where
  | drawingStart (t : DrawType)
  | drawingUpdate (count : ℕ)
  | drawingCancel
  | drawingComplete (id : String)
  | shapeCreated (id : String)
  | shapeUpdated (id : String)
  | shapeDeleted (id : String)
  | shapeSelected (id : String)
  | shapeDeselected
  | shapesCleared
  | historyChange
  | snapActive (active : Bool)
deriving DecidableEq

/-- The style applied to a shape's google object. -/
inductive StyleTag where
  | drawing
  | completed
  | selected
deriving DecidableEq

/-- DrawingManager state. -/
structure DMState where
  shapes : List (String × Shape)
  selectedShapeId : Option String
  isDrawing : Bool
  drawingType : Option DrawType
  drawingPath : List Point
  lastSnapPoint : Option Point
  snappingEnabled : Bool
  snap : SnapState
  history : HistoryState
  idCounter : ℕ
  nameCounter : ℕ
  markersVisible : String → Bool
  styleOf : String → StyleTag

/-- The geometry the SnapEngine reads back from a shape's google object; for
states kept in sync by the manager this is determined by the shape record. -/
def shapeGeom (s : Shape) : ShapeGeom :=
  match s.typ with
  | .polygon => .polygon (s.path.getD [])
  | .polyline => .polyline (s.path.getD [])
  | .circle => .circle (s.center.getD default) (s.radius.getD 0)
  | .rectangle =>
      match s.bounds with
      | some b => .rectangle b.north b.south b.east b.west
      | none => .rectangle 0 0 0 0

/-- Per-type minimum point count used by `completeDrawing`:
`{polygon: 3, polyline: 2, circle: 2, rectangle: 2}[type] || 2`. -/
def minPoints : Option DrawType → ℕ
  | some .polygon => 3
  | some .polyline => 2
  | some .circle => 2
  | some .rectangle => 2
  | none => 2

/-- `_hideMarkers(shapeId)`. -/
def hideMarkers (dm : DMState) (id : String) : DMState :=
  { dm with markersVisible := fun x => if x = id then false else dm.markersVisible x }

/-- `_showMarkers(shapeId)`. -/
def showMarkers (dm : DMState) (id : String) : DMState :=
  { dm with markersVisible := fun x => if x = id then true else dm.markersVisible x }

/-- `shape.obj.setOptions(style)`. -/
def setStyle (dm : DMState) (id : String) (st : StyleTag) : DMState :=
  { dm with styleOf := fun x => if x = id then st else dm.styleOf x }

/-- `DrawingManager._createShape()`: allocates the id/name counters, then
builds the data record for the current drawing type; an unknown type yields
no record (the counters are advanced regardless, as in the source). -/
def createShape (env : MathEnv) (dm : DMState) : Option Shape × ℕ × ℕ :=
  let idCounter := dm.idCounter + 1
  let nameCounter := dm.nameCounter + 1
  let id := "shape_" ++ toString idCounter
  let name := "Shape " ++ toString nameCounter
  match dm.drawingType with
  | some .polygon =>
      (some { id := id, name := name, typ := .polygon, path := some dm.drawingPath,
              center := none, radius := none, bounds := none,
              area := calculatePolygonArea env dm.drawingPath }, idCounter, nameCounter)
  | some .polyline =>
      (some { id := id, name := name, typ := .polyline, path := some dm.drawingPath,
              center := none, radius := none, bounds := none, area := 0 },
        idCounter, nameCounter)
  | some .circle =>
      let center := dm.drawingPath.getD 0 default
      let edgePt := dm.drawingPath.getD 1 default
      let radius := distanceLatLng env center edgePt
      (some { id := id, name := name, typ := .circle, path := none,
              center := some center, radius := some radius, bounds := none,
              area := env.piQ * radius * radius }, idCounter, nameCounter)
  | some .rectangle =>
      let p1 := dm.drawingPath.getD 0 default
      let p2 := dm.drawingPath.getD 1 default
      let bounds : Bounds :=
        { north := max p1.lat p2.lat, south := min p1.lat p2.lat,
          east := max p1.lng p2.lng, west := min p1.lng p2.lng }
      let w := distanceLatLng env ⟨bounds.north, bounds.west⟩ ⟨bounds.north, bounds.east⟩
      let h := distanceLatLng env ⟨bounds.south, bounds.west⟩ ⟨bounds.north, bounds.west⟩
      (some { id := id, name := name, typ := .rectangle, path := none,
              center := none, radius := none, bounds := some bounds, area := w * h },
        idCounter, nameCounter)
  | none => (none, idCounter, nameCounter)

/-- `DrawingManager._registerShape(shape)`: store the shape, register it with
the SnapEngine, create its (hidden) markers in the completed style, push a
`create` history entry (whose onChange notification emits `history:change`)
and emit `shape:created`. -/
def registerShape (dm : DMState) (s : Shape) : DMState × List Event :=
  let dm1 := { dm with
    shapes := mapSet dm.shapes s.id s
    snap := snapAddShape dm.snap s.id (shapeGeom s)
    styleOf := fun x => if x = s.id then .completed else dm.styleOf x
    markersVisible := fun x => if x = s.id then false else dm.markersVisible x }
  let dm2 := { dm1 with history := push dm1.history ⟨"create", true, true⟩ }
  (dm2, [Event.historyChange, Event.shapeCreated s.id])

/-- The state part of `stopDrawing()` / `_cleanupDrawing()`. -/
def stopDrawingState (dm : DMState) : DMState :=
  { dm with
    isDrawing := false
    drawingType := none
    drawingPath := []
    lastSnapPoint := none }

/-- `DrawingManager.completeDrawing()`: no-op unless drawing; no-op (no shape,
no history entry, no event) when the accumulated path is below the type's
minimum point count; otherwise materialize and register the shape, emit
`drawing:complete`, and stop drawing (which emits `drawing:cancel`). -/
def completeDrawing (env : MathEnv) (dm : DMState) : DMState × List Event :=
  if dm.isDrawing = false then (dm, [])
  else if dm.drawingPath.length < minPoints dm.drawingType then (dm, [])
  else
    let c := createShape env dm
    let dm1 := { dm with idCounter := c.2.1, nameCounter := c.2.2 }
    let r :=
      match c.1 with
      | some s =>
          let rr := registerShape dm1 s
          (rr.1, rr.2 ++ [Event.drawingComplete s.id])
      | none => (dm1, ([] : List Event))
    (stopDrawingState r.1, r.2 ++ [Event.drawingCancel])

/-- `DrawingManager.selectShape(id)`: idempotent when already selected;
otherwise the previous selection's markers are hidden and its object (when
it still exists) restyled to completed, the selected id is set
unconditionally, and only an id found in the registry is styled, revealed
and announced via `shape:selected`. -/
def selectShape (dm : DMState) (id : String) : DMState × List Event :=
  if dm.selectedShapeId = some id then (dm, [])
  else
    let dm1 :=
      match dm.selectedShapeId with
      | some prev =>
          let d := hideMarkers dm prev
          match d.shapes.lookup prev with
          | some _ => setStyle d prev .completed
          | none => d
      | none => dm
    let dm2 := { dm1 with selectedShapeId := some id }
    match dm2.shapes.lookup id with
    | some _ => (showMarkers (setStyle dm2 id .selected) id, [Event.shapeSelected id])
    | none => (dm2, [])

/-- `DrawingManager._updateShapeData(shape)`: refresh the stored path from
the (dragged) google object's path, recompute the area for polygons,
re-register the shape with the SnapEngine and emit `shape:updated`.  No
history entry is pushed here. -/
def updateShapeData (env : MathEnv) (dm : DMState) (id : String)
    (newPath : List Point) : DMState × List Event :=
  match dm.shapes.lookup id with
  | none => (dm, [])
  | some s =>
    let s1 := { s with path := some newPath }
    let s2 := if s1.typ = .polygon then
        { s1 with area := calculatePolygonArea env newPath } else s1
    let dm1 := { dm with
      shapes := mapSet dm.shapes id s2
      snap := snapAddShape (snapRemoveShape dm.snap id) id (shapeGeom s2) }
    (dm1, [Event.shapeUpdated id])

/-- The point a drag listener applies to the dragged path index: the snap
result (queried with the dragged shape excluded) when snapping is enabled and
finds one, otherwise the raw cursor point. -/
def dragPoint (env : MathEnv) (dm : DMState) (scale : ℚ)
    (fromLL : Point → PixelPoint) (toLL : PixelPoint → Point)
    (shapeId : String) (pt : Point) : Point :=
  let snapRes :=
    if dm.snappingEnabled then
      (findSnapPoint env dm.snap scale fromLL toLL pt (some shapeId)).1
    else none
  match snapRes with
  | some s => s.point
  | none => pt

/-- A full vertex-handle drag gesture from `_createVertexMarker`: each drag
move sets the dragged index to the (possibly snapped) cursor point; on
`dragend` the shape data is refreshed via `_updateShapeData`.  No history
entry is pushed anywhere in the gesture. -/
def vertexDragGesture (env : MathEnv) (dm : DMState) (scale : ℚ)
    (fromLL : Point → PixelPoint) (toLL : PixelPoint → Point)
    (shapeId : String) (index : ℕ) (moves : List Point) : DMState × List Event :=
  match dm.shapes.lookup shapeId with
  | none => (dm, [])
  | some s =>
    let path0 := s.path.getD []
    let pathF := moves.foldl
      (fun cur pt => cur.set index (dragPoint env dm scale fromLL toLL shapeId pt)) path0
    updateShapeData env dm shapeId pathF

/-- A full midpoint-handle drag gesture from `_createMidpointMarker`: on
`dragstart` a new vertex (the marker's midpoint position) is inserted at
`edgeIndex + 1`; each drag move sets that inserted index to the (possibly
snapped) cursor point; on `dragend` the handle set is rebuilt
(`_rebuildMarkers`: markers are recreated, visible only when the shape is
selected) and the shape data refreshed via `_updateShapeData`.  No history
entry is pushed anywhere in the gesture. -/
def midpointDragGesture (env : MathEnv) (dm : DMState) (scale : ℚ)
    (fromLL : Point → PixelPoint) (toLL : PixelPoint → Point)
    (shapeId : String) (edgeIndex : ℕ) (moves : List Point) : DMState × List Event :=
  match dm.shapes.lookup shapeId with
  | none => (dm, [])
  | some s =>
    let path0 := s.path.getD []
    let n := path0.length
    let p1 := path0.getD edgeIndex default
    let p2 := path0.getD ((edgeIndex + 1) % n) default
    let mid : Point := ⟨(p1.lat + p2.lat) / 2, (p1.lng + p2.lng) / 2⟩
    let insertedIndex := edgeIndex + 1
    let path1 := path0.insertIdx insertedIndex mid
    let pathF := moves.foldl
      (fun cur pt => cur.set insertedIndex (dragPoint env dm scale fromLL toLL shapeId pt))
      path1
    let dmR := { dm with markersVisible := fun x =>
      if x = shapeId then decide (dm.selectedShapeId = some shapeId)
      else dm.markersVisible x }
    updateShapeData env dmR shapeId pathF

/-! ### Concrete instances used to evaluate the model -/

/-- A concrete environment instance (arbitrary rational stand-ins for the
JavaScript Math functions; `sqrtQ` is taken as the identity so pixel
distances evaluate to squared Euclidean distances). -/
def sampleEnv : MathEnv :=
  { piQ := 3
    sinQ := fun x => x
    cosQ := fun _ => 1
    sqrtQ := fun x => x
    atan2Q := fun _ _ => 0 }

/-- A concrete world projection: `x = lng`, `y = lat`. -/
def pxOfGeo : Point → PixelPoint := fun p => ⟨p.lng, p.lat⟩

/-- The inverse of `pxOfGeo`. -/
def geoOfPx : PixelPoint → Point := fun q => ⟨q.y, q.x⟩

/-- A concrete 3-vertex polygon ring. -/
def triPath : List Point := [⟨0, 0⟩, ⟨0, 1⟩, ⟨1, 0⟩]

/-- A completed 3-vertex polygon shape. -/
def triShape : Shape :=
  { id := "shape_1"
    name := "Shape 1"
    typ := .polygon
    path := some triPath
    center := none
    radius := none
    bounds := none
    area := calculatePolygonArea sampleEnv triPath }

/-- A DrawingManager state holding the completed (and selected) 3-vertex
polygon, with one `create` entry in the history. -/
def sampleDM : DMState :=
  { shapes := [("shape_1", triShape)]
    selectedShapeId := some "shape_1"
    isDrawing := false
    drawingType := none
    drawingPath := []
    lastSnapPoint := none
    snappingEnabled := true
    snap := { enabled := true, threshold := 15, shapes := [("shape_1", shapeGeom triShape)] }
    history := { maxSteps := 50, history := [⟨"create", true, true⟩], currentIndex := 0 }
    idCounter := 1
    nameCounter := 1
    markersVisible := fun _ => true
    styleOf := fun _ => .selected }

/-! ### HistoryManager lemmas -/

/-- The constructor establishes the invariant. -/
lemma mkHistory_inv (ms : Option ℕ) : HistInv (mkHistory ms) := by
  rcases ms with _ | (_ | n) <;>
    simp [mkHistory, HistInv]

/-- `undo` either leaves the state unchanged or (with a nonnegative index)
only decrements the index. -/
lemma undo_state (s : HistoryState) :
    (undo s).2.1 = s ∨
    (0 ≤ s.currentIndex ∧
      (undo s).2.1 = { s with currentIndex := s.currentIndex - 1 }) := by
  unfold undo
  by_cases hge : ¬ 0 ≤ s.currentIndex
  · rw [if_pos hge]; left; rfl
  · rw [if_neg hge]
    cases hm : s.history.get? s.currentIndex.toNat with
    | none => left; rfl
    | some action =>
      dsimp only
      by_cases hok : action.undoOk = true
      · rw [if_pos hok]; right; exact ⟨by omega, rfl⟩
      · rw [if_neg hok]; left; rfl

/-- `redo` either leaves the state unchanged or (below the tail) only
increments the index. -/
lemma redo_state (s : HistoryState) :
    (redo s).2.1 = s ∨
    (s.currentIndex < (s.history.length : ℤ) - 1 ∧
      (redo s).2.1 = { s with currentIndex := s.currentIndex + 1 }) := by
  unfold redo
  dsimp only
  by_cases hlt : ¬ s.currentIndex < (s.history.length : ℤ) - 1
  · rw [if_pos hlt]; left; rfl
  · rw [if_neg hlt]
    cases hm : s.history.get? (s.currentIndex + 1).toNat with
    | none => left; rfl
    | some action =>
      dsimp only
      by_cases hok : action.redoOk = true
      · rw [if_pos hok]; right; exact ⟨by omega, rfl⟩
      · rw [if_neg hok]; left; rfl

/-- `push` preserves the invariant and satisfies the bound/index/eviction
specification. -/
lemma push_spec (s : HistoryState) (a : HistAction) (h : HistInv s) :
    HistInv (push s a) ∧
    (push s a).maxSteps = s.maxSteps ∧
    (push s a).currentIndex = ((push s a).history.length : ℤ) - 1 ∧
    (push s a).history.length ≤ s.maxSteps ∧
    (s.currentIndex = (s.maxSteps : ℤ) - 1 →
      (push s a).history = (s.history.take (s.currentIndex + 1).toNat ++ [a]).drop 1 ∧
      (push s a).currentIndex = s.currentIndex) := by
  obtain ⟨h1, h2, h3, h4⟩ := h
  by_cases hc : s.currentIndex < (s.history.length : ℤ) - 1
  · have hni : ¬ (s.history.take (s.currentIndex + 1).toNat ++ [a]).length > s.maxSteps := by
      simp only [List.length_append, List.length_take, List.length_cons, List.length_nil]
      omega
    have hh : (push s a).history = s.history.take (s.currentIndex + 1).toNat ++ [a] := by
      simp only [push, if_pos hc, if_neg hni]
    have hci : (push s a).currentIndex = s.currentIndex + 1 := by
      simp only [push, if_pos hc, if_neg hni]
    have hms : (push s a).maxSteps = s.maxSteps := by
      simp only [push, if_pos hc, if_neg hni]
    have hlen : (push s a).history.length = (s.currentIndex + 1).toNat + 1 := by
      rw [hh]
      simp only [List.length_append, List.length_take, List.length_cons, List.length_nil]
      omega
    refine ⟨⟨by omega, by omega, by omega, by omega⟩, hms, by omega, by omega, ?_⟩
    intro hev
    exfalso; omega
  · by_cases hb : (s.history ++ [a]).length > s.maxSteps
    · have hh : (push s a).history = (s.history ++ [a]).drop 1 := by
        simp only [push, if_neg hc, if_pos hb]
      have hci : (push s a).currentIndex = s.currentIndex + 1 - 1 := by
        simp only [push, if_neg hc, if_pos hb]
      have hms : (push s a).maxSteps = s.maxSteps := by
        simp only [push, if_neg hc, if_pos hb]
      have hb' : s.history.length + 1 > s.maxSteps := by
        simpa using hb
      have hlen : (push s a).history.length = s.history.length := by
        rw [hh]
        simp only [List.length_drop, List.length_append, List.length_cons, List.length_nil]
        omega
      refine ⟨⟨by omega, by omega, by omega, by omega⟩, hms, by omega, by omega, ?_⟩
      intro _
      refine ⟨?_, by omega⟩
      rw [hh, show (s.currentIndex + 1).toNat = s.history.length by omega, List.take_length]
    · have hh : (push s a).history = s.history ++ [a] := by
        simp only [push, if_neg hc, if_neg hb]
      have hci : (push s a).currentIndex = s.currentIndex + 1 := by
        simp only [push, if_neg hc, if_neg hb]
      have hms : (push s a).maxSteps = s.maxSteps := by
        simp only [push, if_neg hc, if_neg hb]
      have hb' : ¬ s.history.length + 1 > s.maxSteps := by
        simpa using hb
      have hlen : (push s a).history.length = s.history.length + 1 := by
        rw [hh]; simp
      refine ⟨⟨by omega, by omega, by omega, by omega⟩, hms, by omega, by omega, ?_⟩
      intro hev
      exfalso; omega

/-- Full case analysis of `undo`: boundary failure without callback, failure
with the callback invoked and the state unchanged, or success decrementing the
index. -/
lemma undo_cases (s : HistoryState) :
    undo s = (false, s, none) ∨
    (∃ i, undo s = (false, s, some i)) ∨
    (0 ≤ s.currentIndex ∧
      undo s = (true, { s with currentIndex := s.currentIndex - 1 },
        some s.currentIndex)) := by
  unfold undo
  by_cases hge : ¬ 0 ≤ s.currentIndex
  · rw [if_pos hge]; left; rfl
  · rw [if_neg hge]
    cases hm : s.history.get? s.currentIndex.toNat with
    | none => left; rfl
    | some action =>
      dsimp only
      by_cases hok : action.undoOk = true
      · rw [if_pos hok]; right; right; exact ⟨by omega, rfl⟩
      · rw [if_neg hok]; right; left; exact ⟨s.currentIndex, rfl⟩

/-- Full case analysis of `redo`: boundary failure without callback, failure
with the callback invoked and the index rolled back, or success incrementing
the index. -/
lemma redo_cases (s : HistoryState) :
    redo s = (false, s, none) ∨
    (∃ i, redo s = (false, s, some i)) ∨
    (s.currentIndex < (s.history.length : ℤ) - 1 ∧
      redo s = (true, { s with currentIndex := s.currentIndex + 1 },
        some (s.currentIndex + 1))) := by
  unfold redo
  dsimp only
  by_cases hlt : ¬ s.currentIndex < (s.history.length : ℤ) - 1
  · rw [if_pos hlt]; left; rfl
  · rw [if_neg hlt]
    cases hm : s.history.get? (s.currentIndex + 1).toNat with
    | none => left; rfl
    | some action =>
      dsimp only
      by_cases hok : action.redoOk = true
      · rw [if_pos hok]; right; right; exact ⟨by omega, rfl⟩
      · rw [if_neg hok]; right; left; exact ⟨s.currentIndex + 1, rfl⟩

/-- A successful `undo` only decrements the index, and requires a
nonnegative index. -/
lemma undo_true (s : HistoryState) (h : (undo s).1 = true) :
    (undo s).2.1 = { s with currentIndex := s.currentIndex - 1 } ∧
    0 ≤ s.currentIndex := by
  rcases undo_cases s with hs | ⟨i, hs⟩ | ⟨hge, hs⟩
  · rw [hs] at h; simp at h
  · rw [hs] at h; simp at h
  · rw [hs]; exact ⟨rfl, hge⟩

/-- `undo` preserves the invariant. -/
lemma undo_inv (s : HistoryState) (h : HistInv s) : HistInv (undo s).2.1 := by
  obtain ⟨h1, h2, h3, h4⟩ := h
  rcases undo_state s with hs | ⟨hge, hs⟩ <;> rw [hs]
  · exact ⟨h1, h2, h3, h4⟩
  · refine ⟨h1, h2, ?_, ?_⟩ <;> · dsimp only; omega

/-- `redo` preserves the invariant. -/
lemma redo_inv (s : HistoryState) (h : HistInv s) : HistInv (redo s).2.1 := by
  obtain ⟨h1, h2, h3, h4⟩ := h
  rcases redo_state s with hs | ⟨hlt, hs⟩ <;> rw [hs]
  · exact ⟨h1, h2, h3, h4⟩
  · refine ⟨h1, h2, ?_, ?_⟩ <;> · dsimp only; omega

/-- `maxSteps` is constant along any operation. -/
lemma applyOp_maxSteps (s : HistoryState) (op : HistOp) (h : HistInv s) :
    (applyOp s op).maxSteps = s.maxSteps := by
  rcases op with a | _ | _
  · exact (push_spec s a h).2.1
  · show (undo s).2.1.maxSteps = s.maxSteps
    rcases undo_state s with hs | ⟨-, hs⟩ <;> rw [hs]
  · show (redo s).2.1.maxSteps = s.maxSteps
    rcases redo_state s with hs | ⟨-, hs⟩ <;> rw [hs]

/-- Any operation preserves the invariant. -/
lemma applyOp_inv (s : HistoryState) (op : HistOp) (h : HistInv s) :
    HistInv (applyOp s op) := by
  rcases op with a | _ | _
  · exact (push_spec s a h).1
  · exact undo_inv s h
  · exact redo_inv s h

/-- Any operation sequence from an invariant state stays invariant, with the
same bound. -/
lemma runOps_inv (ops : List HistOp) (s : HistoryState) (h : HistInv s) :
    HistInv (runOps s ops) ∧ (runOps s ops).maxSteps = s.maxSteps := by
  induction ops generalizing s with
  | nil => exact ⟨h, rfl⟩
  | cons op rest ih =>
    have h1 := applyOp_inv s op h
    have h2 := applyOp_maxSteps s op h
    have h3 := ih (applyOp s op) h1
    exact ⟨h3.1, h3.2.trans h2⟩

/-- `undo()` fails without invoking anything when the index is at the left
boundary. -/
lemma undo_at_bot (s : HistoryState) (h : ¬ 0 ≤ s.currentIndex) :
    undo s = (false, s, none) := by
  unfold undo
  rw [if_pos h]

/-- `redo()` fails without invoking anything when the index is at the tail. -/
lemma redo_at_tail (s : HistoryState)
    (h : ¬ s.currentIndex < (s.history.length : ℤ) - 1) :
    redo s = (false, s, none) := by
  unfold redo
  dsimp only
  rw [if_pos h]

/-- A throwing `undo` callback leaves the index unmoved and reports failure. -/
lemma undo_fail (s : HistoryState) (action : HistAction)
    (hge : 0 ≤ s.currentIndex)
    (hget : s.history.get? s.currentIndex.toNat = some action)
    (hok : action.undoOk = false) :
    undo s = (false, s, some s.currentIndex) := by
  unfold undo
  rw [if_neg (not_not_intro hge), hget]
  dsimp only
  rw [if_neg (by simp [hok])]

/-- A throwing `redo` callback rolls the index back and reports failure. -/
lemma redo_fail (s : HistoryState) (action : HistAction)
    (hlt : s.currentIndex < (s.history.length : ℤ) - 1)
    (hget : s.history.get? (s.currentIndex + 1).toNat = some action)
    (hok : action.redoOk = false) :
    redo s = (false, s, some (s.currentIndex + 1)) := by
  unfold redo
  dsimp only
  rw [if_neg (not_not_intro hlt), hget]
  dsimp only
  rw [if_neg (by simp [hok])]

/-- A run of `k` undos that all succeed keeps the entries and bound, moves the
index down by exactly `k`, and (for `k ≥ 1`) leaves the index at `≥ -1`. -/
lemma undoTimes_true (k : ℕ) : ∀ s : HistoryState, (undoTimes k s).1 = true →
    (undoTimes k s).2.history = s.history ∧
    (undoTimes k s).2.maxSteps = s.maxSteps ∧
    (undoTimes k s).2.currentIndex = s.currentIndex - k ∧
    (1 ≤ k → -1 ≤ (undoTimes k s).2.currentIndex) := by
  induction k with
  | zero =>
    intro s _
    refine ⟨rfl, rfl, by simp [undoTimes], ?_⟩
    intro hk
    exact absurd hk (by omega)
  | succ k ih =>
    intro s h
    have hred : undoTimes (k + 1) s =
        if (undo s).1 = true then undoTimes k (undo s).2.1
        else (false, (undo s).2.1) := rfl
    by_cases hr : (undo s).1 = true
    · have hu := undo_true s hr
      have h2 := hu.2
      rw [hred, if_pos hr, hu.1] at h ⊢
      obtain ⟨e1, e2, e3, e4⟩ :=
        ih { s with currentIndex := s.currentIndex - 1 } h
      dsimp only at e1 e2 e3 e4
      refine ⟨e1, e2, by push_cast at e3 ⊢; omega, ?_⟩
      intro _
      rcases Nat.eq_zero_or_pos k with rfl | hk
      · push_cast at e3
        omega
      · exact e4 hk
    · exfalso
      rw [hred, if_neg hr] at h
      simp at h

/-- C5: from any reachable HistoryManager state, the history length never
exceeds `maxSteps`; a push keeps the length within the bound and leaves
`currentIndex` pointing at the just-pushed entry (`length - 1`); and a push
from a state whose index sits at `maxSteps - 1` evicts the oldest entry and
ends with `currentIndex` unchanged (advanced then decremented). -/
theorem history_bounded_push_points_at_tail (ms : Option ℕ) (ops : List HistOp)
    (a : HistAction) :
    let s := runOps (mkHistory ms) ops
    s.history.length ≤ s.maxSteps ∧
    (push s a).history.length ≤ s.maxSteps ∧
    (push s a).currentIndex = ((push s a).history.length : ℤ) - 1 ∧
    (s.currentIndex = (s.maxSteps : ℤ) - 1 →
      (push s a).history = (s.history.take (s.currentIndex + 1).toNat ++ [a]).drop 1 ∧
      (push s a).currentIndex = s.currentIndex) := by
  intro s
  have hinv : HistInv s := (runOps_inv ops (mkHistory ms) (mkHistory_inv ms)).1
  have hp := push_spec s a hinv
  exact ⟨hinv.2.1, hp.2.2.2.1, hp.2.2.1, hp.2.2.2.2⟩

/-- Witness for C5 at `maxSteps = 2` with two entries already pushed (the
index sits at the bound, so the third push evicts the oldest entry). -/
theorem history_bounded_push_points_at_tail_witness :
    (let s := runOps (mkHistory (some 2))
        [HistOp.pushOp ⟨"a", true, true⟩, HistOp.pushOp ⟨"b", true, true⟩]
     s.history.length ≤ s.maxSteps ∧
     (push s ⟨"c", true, true⟩).history =
       (s.history.take (s.currentIndex + 1).toNat ++
         [(⟨"c", true, true⟩ : HistAction)]).drop 1 ∧
     (push s ⟨"c", true, true⟩).currentIndex = s.currentIndex) := by
  have h := history_bounded_push_points_at_tail (some 2)
    [HistOp.pushOp ⟨"a", true, true⟩, HistOp.pushOp ⟨"b", true, true⟩]
    ⟨"c", true, true⟩
  exact ⟨h.1, (h.2.2.2 (by decide)).1, (h.2.2.2 (by decide)).2⟩

/-- C6: pushing after a run of successful undos discards the redo branch —
the new history is the truncation at the (undone) index plus the new entry,
`canRedo` is false afterwards, and `redo()` fails without resurrecting
anything. -/
theorem push_after_undo_discards_redo (ms : Option ℕ) (as : List HistAction)
    (k : ℕ) (a : HistAction) (hk : 1 ≤ k)
    (hsucc : (undoTimes k (runOps (mkHistory ms) (as.map HistOp.pushOp))).1 = true) :
    let s1 := runOps (mkHistory ms) (as.map HistOp.pushOp)
    let s2 := (undoTimes k s1).2
    let s3 := push s2 a
    s3.history = s2.history.take (s2.currentIndex + 1).toNat ++ [a] ∧
    canRedo s3 = false ∧
    redo s3 = (false, s3, none) := by
  intro s1 s2 s3
  have hinv1 : HistInv s1 :=
    (runOps_inv (as.map HistOp.pushOp) (mkHistory ms) (mkHistory_inv ms)).1
  obtain ⟨e1, e2, e3, e4⟩ := undoTimes_true k s1 hsucc
  have el : s2.history.length = s1.history.length := by
    show (undoTimes k s1).2.history.length = _
    rw [e1]
  have hc : s2.currentIndex < (s2.history.length : ℤ) - 1 := by
    have := hinv1.2.2.2
    show (undoTimes k s1).2.currentIndex < _
    rw [e3]
    omega
  have hni : ¬ (s2.history.take (s2.currentIndex + 1).toNat ++ [a]).length > s2.maxSteps := by
    have h1 := hinv1.2.1
    have h2 := hinv1.2.2.2
    have hm2 : s2.maxSteps = s1.maxSteps := e2
    have hci2 : s2.currentIndex = s1.currentIndex - k := e3
    have hge2 : -1 ≤ s2.currentIndex := e4 hk
    simp only [List.length_append, List.length_take, List.length_cons, List.length_nil]
    omega
  have hh : s3.history = s2.history.take (s2.currentIndex + 1).toNat ++ [a] := by
    show (push s2 a).history = _
    simp only [push, if_pos hc, if_neg hni]
  have hci3 : s3.currentIndex = s2.currentIndex + 1 := by
    show (push s2 a).currentIndex = _
    simp only [push, if_pos hc, if_neg hni]
  have hge2 : -1 ≤ s2.currentIndex := e4 hk
  have hlen3 : s3.history.length = (s2.currentIndex + 1).toNat + 1 := by
    rw [hh]
    simp only [List.length_append, List.length_take, List.length_cons, List.length_nil]
    omega
  have hnotlt : ¬ s3.currentIndex < (s3.history.length : ℤ) - 1 := by
    rw [hci3, hlen3]
    push_cast
    omega
  refine ⟨hh, ?_, redo_at_tail s3 hnotlt⟩
  simp only [canRedo, decide_eq_false_iff_not]
  exact hnotlt

/-- Witness for C6: push 3 entries, undo 2, push 1 — redo then fails. -/
theorem push_after_undo_discards_redo_witness :
    (let s1 := runOps (mkHistory (some 5))
        ([⟨"a", true, true⟩, ⟨"b", true, true⟩, ⟨"c", true, true⟩].map HistOp.pushOp)
     let s2 := (undoTimes 2 s1).2
     let s3 := push s2 ⟨"d", true, true⟩
     s3.history = s2.history.take (s2.currentIndex + 1).toNat ++
       [(⟨"d", true, true⟩ : HistAction)] ∧
     canRedo s3 = false ∧
     redo s3 = (false, s3, none)) :=
  push_after_undo_discards_redo (some 5)
    [⟨"a", true, true⟩, ⟨"b", true, true⟩, ⟨"c", true, true⟩] 2
    ⟨"d", true, true⟩ (by decide) (by decide)

/-- C7: `undo()` below the left boundary and `redo()` at the tail fail
without invoking any callback and leave the state untouched; a throwing
`undo` callback leaves the index unmoved; a throwing `redo` callback rolls
the index back — in every failure case the returned state is the pre-call
state. -/
theorem undo_redo_failure_semantics (s : HistoryState) :
    (s.currentIndex < 0 → undo s = (false, s, none)) ∧
    (¬ s.currentIndex < (s.history.length : ℤ) - 1 → redo s = (false, s, none)) ∧
    (∀ action, 0 ≤ s.currentIndex →
      s.history.get? s.currentIndex.toNat = some action → action.undoOk = false →
      undo s = (false, s, some s.currentIndex)) ∧
    (∀ action, s.currentIndex < (s.history.length : ℤ) - 1 →
      s.history.get? (s.currentIndex + 1).toNat = some action → action.redoOk = false →
      redo s = (false, s, some (s.currentIndex + 1))) := by
  refine ⟨fun h => undo_at_bot s (by omega), fun h => redo_at_tail s h, ?_, ?_⟩
  · intro action hge hget hok
    exact undo_fail s action hge hget hok
  · intro action hlt hget hok
    exact redo_fail s action hlt hget hok

/-- Witness for C7: the four failure cases at concrete states. -/
theorem undo_redo_failure_semantics_witness :
    undo ⟨50, [], -1⟩ = (false, ⟨50, [], -1⟩, none) ∧
    redo ⟨50, [⟨"x", true, true⟩], 0⟩ = (false, ⟨50, [⟨"x", true, true⟩], 0⟩, none) ∧
    undo ⟨50, [⟨"x", false, true⟩], 0⟩ = (false, ⟨50, [⟨"x", false, true⟩], 0⟩, some 0) ∧
    redo ⟨50, [⟨"x", true, false⟩], -1⟩ = (false, ⟨50, [⟨"x", true, false⟩], -1⟩, some 0) := by
  refine ⟨(undo_redo_failure_semantics ⟨50, [], -1⟩).1 (by decide), ?_, ?_, ?_⟩
  · exact (undo_redo_failure_semantics ⟨50, [⟨"x", true, true⟩], 0⟩).2.1 (by decide)
  · exact (undo_redo_failure_semantics ⟨50, [⟨"x", false, true⟩], 0⟩).2.2.1
      ⟨"x", false, true⟩ (by decide) (by decide) (by decide)
  · have h := (undo_redo_failure_semantics ⟨50, [⟨"x", true, false⟩], -1⟩).2.2.2
      ⟨"x", true, false⟩ (by decide) (by decide) (by decide)
    simpa using h

/-! ### DrawingManager theorems -/

/-- C8: with an active drawing session whose accumulated path is below the
type's minimum point count (polygon 3, polyline 2, circle 2, rectangle 2),
`completeDrawing()` is a silent no-op: the state — including the shape
registry, the history, and the drawing path — is returned unchanged and no
event is emitted, so the session stays in the Drawing state. -/
theorem completeDrawing_below_minimum_noop (env : MathEnv) (dm : DMState)
    (hdrawing : dm.isDrawing = true)
    (hshort : dm.drawingPath.length < minPoints dm.drawingType) :
    completeDrawing env dm = (dm, []) := by
  unfold completeDrawing
  rw [if_neg (by simp [hdrawing]), if_pos hshort]

/-- Witness for C8: a polygon session with only 2 accumulated points. -/
theorem completeDrawing_below_minimum_noop_witness :
    completeDrawing sampleEnv
      { sampleDM with
        isDrawing := true
        drawingType := some .polygon
        drawingPath := [⟨0, 0⟩, ⟨0, 1⟩] } =
      ({ sampleDM with
        isDrawing := true
        drawingType := some .polygon
        drawingPath := [⟨0, 0⟩, ⟨0, 1⟩] }, []) :=
  completeDrawing_below_minimum_noop sampleEnv _ rfl (by decide)

/-- C10: selecting an id that is not in the registry still hides the previous
selection's markers and restyles it to completed, sets the selected id to the
unknown id, and emits nothing (in particular no `shape:selected`), leaving
the session with a dangling selected id. -/
theorem selectShape_unknown_id (dm : DMState) (id : String)
    (hmiss : dm.shapes.lookup id = none) :
    (selectShape dm id).1.selectedShapeId = some id ∧
    (selectShape dm id).2 = [] ∧
    (∀ prev, dm.selectedShapeId = some prev → prev ≠ id →
      (selectShape dm id).1.markersVisible prev = false ∧
      (∀ s, dm.shapes.lookup prev = some s →
        (selectShape dm id).1.styleOf prev = .completed)) := by
  by_cases hsame : dm.selectedShapeId = some id
  · rw [show selectShape dm id = (dm, []) from by unfold selectShape; rw [if_pos hsame]]
    refine ⟨hsame, rfl, ?_⟩
    intro prev hprev hne
    rw [hsame] at hprev
    exact absurd (by injection hprev with h; exact h.symm) hne
  · cases hsel : dm.selectedShapeId with
    | none =>
      have hred : selectShape dm id = ({ dm with selectedShapeId := some id }, []) := by
        unfold selectShape
        rw [if_neg hsame, hsel]
        dsimp only
        rw [hmiss]
      rw [hred]
      exact ⟨rfl, rfl, fun prev hprev _ => Option.noConfusion hprev⟩
    | some prev =>
      cases hsprev : dm.shapes.lookup prev with
      | some sprev =>
        have hred : selectShape dm id =
            ({ setStyle (hideMarkers dm prev) prev .completed with
               selectedShapeId := some id }, []) := by
          unfold selectShape
          rw [if_neg hsame, hsel]
          dsimp only
          rw [show (hideMarkers dm prev).shapes = dm.shapes from rfl, hsprev]
          dsimp only
          rw [show (setStyle (hideMarkers dm prev) prev StyleTag.completed).shapes
              = dm.shapes from rfl, hmiss]
        rw [hred]
        refine ⟨rfl, rfl, ?_⟩
        intro p hp hne
        have hpe : p = prev := by injection hp with h; exact h.symm
        subst hpe
        refine ⟨?_, fun _ _ => ?_⟩
        · show (setStyle (hideMarkers dm p) p StyleTag.completed).markersVisible p = false
          simp [setStyle, hideMarkers]
        · show (setStyle (hideMarkers dm p) p StyleTag.completed).styleOf p = .completed
          simp [setStyle]
      | none =>
        have hred : selectShape dm id =
            ({ hideMarkers dm prev with selectedShapeId := some id }, []) := by
          unfold selectShape
          rw [if_neg hsame, hsel]
          dsimp only
          rw [show (hideMarkers dm prev).shapes = dm.shapes from rfl, hsprev]
          dsimp only
          rw [show (hideMarkers dm prev).shapes = dm.shapes from rfl, hmiss]
        rw [hred]
        refine ⟨rfl, rfl, ?_⟩
        intro p hp hne
        have hpe : p = prev := by injection hp with h; exact h.symm
        subst hpe
        refine ⟨?_, fun s hs => ?_⟩
        · show (hideMarkers dm p).markersVisible p = false
          simp [hideMarkers]
        · rw [hsprev] at hs
          exact Option.noConfusion hs

/-- Witness for C10: selecting the unknown id `"ghost"` while `"shape_1"`
is selected. -/
theorem selectShape_unknown_id_witness :
    (selectShape sampleDM "ghost").1.selectedShapeId = some "ghost" ∧
    (selectShape sampleDM "ghost").2 = [] ∧
    (selectShape sampleDM "ghost").1.markersVisible "shape_1" = false ∧
    (selectShape sampleDM "ghost").1.styleOf "shape_1" = .completed := by
  have h := selectShape_unknown_id sampleDM "ghost" (by decide)
  have h3 := h.2.2 "shape_1" rfl (by decide)
  exact ⟨h.1, h.2.1, h3.1, h3.2 triShape rfl⟩

/-- C1 (evaluation at the failing input): a full midpoint-handle drag gesture
(dragstart, one move, dragend) on the completed 3-vertex polygon inserts
exactly one vertex at the midpoint's edge index + 1 — the stored path length
becomes 4 and the dragged point sits at index 1 — but the gesture records NO
history entry: the HistoryManager state is returned bit-for-bit unchanged
(length still 1), whereas the claim requires exactly one entry for the
gesture. -/
theorem midpointDrag_inserts_vertex_but_records_no_history :
    (let r := midpointDragGesture sampleEnv sampleDM 1 pxOfGeo geoOfPx "shape_1" 0 [⟨5, 5⟩]
     ((r.1.shapes.lookup "shape_1").map (fun s => (s.path.getD []).length) = some 4) ∧
     ((r.1.shapes.lookup "shape_1").map (fun s => (s.path.getD []).getD 1 default) =
       some ⟨5, 5⟩) ∧
     r.1.history = sampleDM.history ∧
     r.1.history.history.length = 1 ∧
     r.2 = [Event.shapeUpdated "shape_1"]) :=
  ⟨rfl, rfl, rfl, rfl, rfl⟩

/-- C2 (evaluation at the failing input): releasing a vertex-handle drag on
the completed 3-vertex polygon does recompute the shape's stored path and
area (via `_updateShapeData`), and emits `shape:updated` — but it pushes NO
history action: the HistoryManager state is returned bit-for-bit unchanged,
whereas the claim requires exactly one action capturing the gesture's
before/after state. -/
theorem vertexDrag_updates_geometry_but_records_no_history :
    (let r := vertexDragGesture sampleEnv sampleDM 1 pxOfGeo geoOfPx "shape_1" 0 [⟨2, 7⟩]
     ((r.1.shapes.lookup "shape_1").map (fun s => s.path.getD []) =
       some [⟨2, 7⟩, ⟨0, 1⟩, ⟨1, 0⟩]) ∧
     ((r.1.shapes.lookup "shape_1").map (fun s => s.area) =
       some (calculatePolygonArea sampleEnv [⟨2, 7⟩, ⟨0, 1⟩, ⟨1, 0⟩])) ∧
     r.2 = [Event.shapeUpdated "shape_1"] ∧
     r.1.history = sampleDM.history ∧
     r.1.history.history.length = 1) :=
  ⟨rfl, rfl, rfl, rfl, rfl⟩

/-! ### SnapEngine theorems -/

/-- An element read by `getD` within bounds is a member of the list. -/
lemma getD_mem {α : Type} [Inhabited α] (l : List α) (i : ℕ) (h : i < l.length) :
    l.getD i default ∈ l := by
  rw [List.getD_eq_getElem _ _ h]
  exact List.getElem_mem h

/-- The invariant maintained by the `findSnapPoint` edge loop over the
processed prefix `pre`: with no best yet, the tracked minimum is still the
threshold and every processed edge was at least that far; with a best `r`,
its distance is the tracked minimum, strictly under the threshold, equal to
the distance of its own edge, no processed edge is closer, and `r.edge` is
the FIRST processed edge attaining that distance. -/
def SnapInv (thr : ℚ) (dist : Edge → ℚ) (pre : List Edge)
    (st : Option SnapResult × ℚ × ℕ) : Prop :=
  (st.1 = none → st.2.1 = thr ∧ ∀ e ∈ pre, thr ≤ dist e) ∧
  (∀ r, st.1 = some r →
    r.distance = st.2.1 ∧ st.2.1 < thr ∧ r.distance = dist r.edge ∧
    (∀ e ∈ pre, r.distance ≤ dist e) ∧
    ∃ i, i < pre.length ∧ pre.getD i default = r.edge ∧
      ∀ j, j < i → r.distance < dist (pre.getD j default))

/-- One loop iteration preserves the invariant. -/
lemma snapStep_preserves (env : MathEnv) (scale : ℚ) (fromLL : Point → PixelPoint)
    (toLL : PixelPoint → Point) (cursor : Point) (thr : ℚ)
    (pre : List Edge) (st : Option SnapResult × ℚ × ℕ) (e : Edge)
    (h : SnapInv thr (edgeDistance env scale fromLL cursor) pre st) :
    SnapInv thr (edgeDistance env scale fromLL cursor) (pre ++ [e])
      (snapStep env scale fromLL toLL cursor st e) := by
  obtain ⟨hnone, hsome⟩ := h
  unfold snapStep
  by_cases hlt : (edgeProj env scale fromLL cursor e).distance < st.2.1
  · rw [if_pos hlt]
    constructor
    · intro hc
      exact Option.noConfusion hc
    · intro r hr
      injection hr with hr
      subst hr
      have hthr : st.2.1 ≤ thr := by
        cases hb : st.1 with
        | none => exact le_of_eq (hnone hb).1
        | some r0 =>
          obtain ⟨e1, e2, _, _, _⟩ := hsome r0 hb
          exact le_of_lt e2
      refine ⟨rfl, lt_of_lt_of_le hlt hthr, rfl, ?_, ?_⟩
      · intro e2 he2
        rcases List.mem_append.mp he2 with he2 | he2
        · cases hb : st.1 with
          | none =>
            obtain ⟨hm, hall⟩ := hnone hb
            calc (edgeProj env scale fromLL cursor e).distance
                ≤ thr := le_of_lt (lt_of_lt_of_le hlt hthr)
              _ ≤ edgeDistance env scale fromLL cursor e2 := hall e2 he2
          | some r0 =>
            obtain ⟨e1, _, _, hall, _⟩ := hsome r0 hb
            have := hall e2 he2
            have hle : st.2.1 ≤ edgeDistance env scale fromLL cursor e2 := by
              rw [← e1]; exact this
            exact le_of_lt (lt_of_lt_of_le hlt hle)
        · rcases List.mem_singleton.mp he2 with rfl
          exact le_of_eq rfl
      · refine ⟨pre.length, by simp, ?_, ?_⟩
        · rw [List.getD_append_right _ _ _ _ (le_refl _)]
          simp
        · intro j hj
          rw [List.getD_append _ _ _ _ hj]
          cases hb : st.1 with
          | none =>
            obtain ⟨hm, hall⟩ := hnone hb
            have := hall _ (getD_mem pre j hj)
            calc (edgeProj env scale fromLL cursor e).distance
                < st.2.1 := hlt
              _ = thr := hm
              _ ≤ _ := this
          | some r0 =>
            obtain ⟨e1, _, _, hall, _⟩ := hsome r0 hb
            have := hall _ (getD_mem pre j hj)
            have hle : st.2.1 ≤ edgeDistance env scale fromLL cursor (pre.getD j default) := by
              rw [← e1]; exact this
            exact lt_of_lt_of_le hlt hle
  · rw [if_neg hlt]
    constructor
    · intro hc
      obtain ⟨hm, hall⟩ := hnone hc
      refine ⟨hm, ?_⟩
      intro e2 he2
      rcases List.mem_append.mp he2 with he2 | he2
      · exact hall e2 he2
      · rcases List.mem_singleton.mp he2 with rfl
        rw [← hm]
        exact le_of_not_lt hlt
    · intro r hr
      obtain ⟨e1, e2, e3, hall, i, hi, hie, hfirst⟩ := hsome r hr
      refine ⟨e1, e2, e3, ?_, ⟨i, ?_, ?_, ?_⟩⟩
      · intro e2 he2
        rcases List.mem_append.mp he2 with he2 | he2
        · exact hall e2 he2
        · rcases List.mem_singleton.mp he2 with rfl
          rw [e1]
          exact le_of_not_lt hlt
      · simp
        omega
      · rw [List.getD_append _ _ _ _ hi]
        exact hie
      · intro j hj
        rw [List.getD_append _ _ _ _ (lt_trans hj hi)]
        exact hfirst j hj

/-- The invariant propagates through the whole fold. -/
lemma snapFold_inv (env : MathEnv) (scale : ℚ) (fromLL : Point → PixelPoint)
    (toLL : PixelPoint → Point) (cursor : Point) (thr : ℚ) (es : List Edge) :
    ∀ (pre : List Edge) (st : Option SnapResult × ℚ × ℕ),
      SnapInv thr (edgeDistance env scale fromLL cursor) pre st →
      SnapInv thr (edgeDistance env scale fromLL cursor) (pre ++ es)
        (es.foldl (snapStep env scale fromLL toLL cursor) st) := by
  induction es with
  | nil =>
    intro pre st h
    simpa using h
  | cons e tl ih =>
    intro pre st h
    have hstep := snapStep_preserves env scale fromLL toLL cursor thr pre st e h
    have := ih (pre ++ [e]) (snapStep env scale fromLL toLL cursor st e) hstep
    simpa [List.append_assoc] using this

/-- Disabled engine or empty registry: `findSnapPoint` returns none with zero
coordinate conversions. -/
lemma findSnapPoint_disabled (env : MathEnv) (se : SnapState) (scale : ℚ)
    (fromLL : Point → PixelPoint) (toLL : PixelPoint → Point)
    (cursor : Point) (excl : Option String)
    (h : se.enabled = false ∨ se.shapes = []) :
    findSnapPoint env se scale fromLL toLL cursor excl = (none, 0) := by
  unfold findSnapPoint
  rw [if_pos (h.elim (fun h1 => Or.inl (by simp [h1])) Or.inr)]

/-- When `findSnapPoint` returns a result, that result comes from the edge
loop: its distance is strictly under the threshold, equals the projected
distance of its own edge, no considered edge is closer, and its edge is the
first edge in iteration order attaining the minimum. -/
lemma findSnapPoint_some_mem (env : MathEnv) (se : SnapState) (scale : ℚ)
    (fromLL : Point → PixelPoint) (toLL : PixelPoint → Point)
    (cursor : Point) (excl : Option String) (res : SnapResult) (n : ℕ)
    (h : findSnapPoint env se scale fromLL toLL cursor excl = (some res, n)) :
    res.edge ∈ getAllEdges env se.shapes excl ∧
    res.distance < se.threshold ∧
    res.distance = edgeDistance env scale fromLL cursor res.edge ∧
    (∀ e ∈ getAllEdges env se.shapes excl,
      res.distance ≤ edgeDistance env scale fromLL cursor e) ∧
    ∃ i, i < (getAllEdges env se.shapes excl).length ∧
      (getAllEdges env se.shapes excl).getD i default = res.edge ∧
      ∀ j, j < i → res.distance <
        edgeDistance env scale fromLL cursor
          ((getAllEdges env se.shapes excl).getD j default) := by
  by_cases h0 : ¬ se.enabled ∨ se.shapes = []
  · rw [show findSnapPoint env se scale fromLL toLL cursor excl = (none, 0) from by
      unfold findSnapPoint; rw [if_pos h0]] at h
    exact absurd (congrArg Prod.fst h) (by simp)
  · by_cases h1 : getAllEdges env se.shapes excl = []
    · rw [show findSnapPoint env se scale fromLL toLL cursor excl = (none, 0) from by
        unfold findSnapPoint; rw [if_neg h0]; dsimp only; rw [if_pos h1]] at h
      exact absurd (congrArg Prod.fst h) (by simp)
    · have heq : findSnapPoint env se scale fromLL toLL cursor excl =
          (((getAllEdges env se.shapes excl).foldl
              (snapStep env scale fromLL toLL cursor) (none, se.threshold, 1)).1,
           ((getAllEdges env se.shapes excl).foldl
              (snapStep env scale fromLL toLL cursor) (none, se.threshold, 1)).2.2) := by
        unfold findSnapPoint
        rw [if_neg h0]
        dsimp only
        rw [if_neg h1]
      rw [heq] at h
      have hfold : ((getAllEdges env se.shapes excl).foldl
          (snapStep env scale fromLL toLL cursor) (none, se.threshold, 1)).1 = some res := by
        have := congrArg Prod.fst h
        simpa using this
      have hinv0 : SnapInv se.threshold (edgeDistance env scale fromLL cursor) []
          (none, se.threshold, 1) := by
        constructor
        · intro _
          exact ⟨rfl, fun e he => absurd he (List.not_mem_nil e)⟩
        · intro r hr
          exact Option.noConfusion hr
      have hinv := snapFold_inv env scale fromLL toLL cursor se.threshold
        (getAllEdges env se.shapes excl) [] (none, se.threshold, 1) hinv0
      rw [List.nil_append] at hinv
      obtain ⟨e1, e2, e3, hall, i, hi, hie, hfirst⟩ := hinv.2 res hfold
      refine ⟨?_, ?_, e3, hall, i, hi, hie, hfirst⟩
      · rw [← hie]
        exact getD_mem _ i hi
      · rw [e1]
        exact e2

/-- When every considered edge is at least the threshold away,
`findSnapPoint` returns none. -/
lemma findSnapPoint_none_of_far (env : MathEnv) (se : SnapState) (scale : ℚ)
    (fromLL : Point → PixelPoint) (toLL : PixelPoint → Point)
    (cursor : Point) (excl : Option String)
    (hall : ∀ e ∈ getAllEdges env se.shapes excl,
      se.threshold ≤ edgeDistance env scale fromLL cursor e) :
    (findSnapPoint env se scale fromLL toLL cursor excl).1 = none := by
  cases hres : (findSnapPoint env se scale fromLL toLL cursor excl).1 with
  | none => rfl
  | some res =>
    exfalso
    have h : findSnapPoint env se scale fromLL toLL cursor excl =
        (some res, (findSnapPoint env se scale fromLL toLL cursor excl).2) := by
      rw [← hres]
    obtain ⟨hmem, hlt, hd, _⟩ := findSnapPoint_some_mem env se scale fromLL toLL
      cursor excl res _ h
    have := hall res.edge hmem
    rw [← hd] at this
    exact absurd hlt (not_lt.mpr this)

/-- When the engine is enabled and some considered edge is strictly closer
than the threshold, `findSnapPoint` returns a result. -/
lemma findSnapPoint_some_of_near (env : MathEnv) (se : SnapState) (scale : ℚ)
    (fromLL : Point → PixelPoint) (toLL : PixelPoint → Point)
    (cursor : Point) (excl : Option String) (hen : se.enabled = true)
    (hex : ∃ e ∈ getAllEdges env se.shapes excl,
      edgeDistance env scale fromLL cursor e < se.threshold) :
    ∃ res, (findSnapPoint env se scale fromLL toLL cursor excl).1 = some res := by
  obtain ⟨e0, he0, hd0⟩ := hex
  have hne : getAllEdges env se.shapes excl ≠ [] := by
    intro hc
    rw [hc] at he0
    exact List.not_mem_nil e0 he0
  have hshapes : se.shapes ≠ [] := by
    intro hc
    apply hne
    rw [show getAllEdges env se.shapes excl
        = getAllEdges env ([] : List (String × ShapeGeom)) excl from by rw [hc]]
    rfl
  have h0 : ¬ (¬ se.enabled ∨ se.shapes = []) := by
    rintro (hc | hc)
    · exact hc (by simp [hen])
    · exact hshapes hc
  have heq : findSnapPoint env se scale fromLL toLL cursor excl =
      (((getAllEdges env se.shapes excl).foldl
          (snapStep env scale fromLL toLL cursor) (none, se.threshold, 1)).1,
       ((getAllEdges env se.shapes excl).foldl
          (snapStep env scale fromLL toLL cursor) (none, se.threshold, 1)).2.2) := by
    unfold findSnapPoint
    rw [if_neg h0]
    dsimp only
    rw [if_neg hne]
  cases hfold : ((getAllEdges env se.shapes excl).foldl
      (snapStep env scale fromLL toLL cursor) (none, se.threshold, 1)).1 with
  | some r =>
    refine ⟨r, ?_⟩
    rw [heq]
    exact hfold
  | none =>
    exfalso
    have hinv0 : SnapInv se.threshold (edgeDistance env scale fromLL cursor) []
        (none, se.threshold, 1) := by
      constructor
      · intro _
        exact ⟨rfl, fun e he => absurd he (List.not_mem_nil e)⟩
      · intro r hr
        exact Option.noConfusion hr
    have hinv := snapFold_inv env scale fromLL toLL cursor se.threshold
      (getAllEdges env se.shapes excl) [] (none, se.threshold, 1) hinv0
    rw [List.nil_append] at hinv
    have := (hinv.1 hfold).2 e0 he0
    exact absurd hd0 (not_lt.mpr this)

/-- C3: `findSnapPoint` returns none with zero coordinate conversions when the
engine is disabled or no shapes are registered; returns none when every
considered edge's pixel distance is at least the threshold; when it returns a
result, the result's distance is strictly under the threshold, is the
projected distance of the result's edge, no considered edge is strictly
closer, and the kept edge is the first in iteration order attaining the
minimum (ties keep the earlier edge); and a result is guaranteed whenever the
engine is enabled and some edge lies strictly inside the threshold. -/
theorem findSnapPoint_spec (env : MathEnv) (se : SnapState) (scale : ℚ)
    (fromLL : Point → PixelPoint) (toLL : PixelPoint → Point)
    (cursor : Point) (excl : Option String) :
    ((se.enabled = false ∨ se.shapes = []) →
      findSnapPoint env se scale fromLL toLL cursor excl = (none, 0)) ∧
    ((∀ e ∈ getAllEdges env se.shapes excl,
        se.threshold ≤ edgeDistance env scale fromLL cursor e) →
      (findSnapPoint env se scale fromLL toLL cursor excl).1 = none) ∧
    (∀ res, (findSnapPoint env se scale fromLL toLL cursor excl).1 = some res →
      res.distance < se.threshold ∧
      res.distance = edgeDistance env scale fromLL cursor res.edge ∧
      (∀ e ∈ getAllEdges env se.shapes excl,
        res.distance ≤ edgeDistance env scale fromLL cursor e) ∧
      ∃ i, i < (getAllEdges env se.shapes excl).length ∧
        (getAllEdges env se.shapes excl).getD i default = res.edge ∧
        ∀ j, j < i → res.distance <
          edgeDistance env scale fromLL cursor
            ((getAllEdges env se.shapes excl).getD j default)) ∧
    (se.enabled = true →
      (∃ e ∈ getAllEdges env se.shapes excl,
        edgeDistance env scale fromLL cursor e < se.threshold) →
      ∃ res, (findSnapPoint env se scale fromLL toLL cursor excl).1 = some res) := by
  refine ⟨findSnapPoint_disabled env se scale fromLL toLL cursor excl,
    findSnapPoint_none_of_far env se scale fromLL toLL cursor excl, ?_,
    findSnapPoint_some_of_near env se scale fromLL toLL cursor excl⟩
  intro res hres
  have h := findSnapPoint_some_mem env se scale fromLL toLL cursor excl res
    (findSnapPoint env se scale fromLL toLL cursor excl).2 (by rw [← hres])
  exact ⟨h.2.1, h.2.2.1, h.2.2.2.1, h.2.2.2.2⟩

/-- Every edge produced for one shape carries that shape's id. -/
lemma shapeEdges_shapeId (env : MathEnv) (id : String) (g : ShapeGeom) :
    ∀ e ∈ shapeEdges env id g, e.shapeId = id := by
  intro e he
  cases g with
  | polygon path =>
    simp only [shapeEdges, ringEdges, List.mem_map, List.mem_range] at he
    obtain ⟨i, _, rfl⟩ := he
    rfl
  | polyline path =>
    simp only [shapeEdges, List.mem_map, List.mem_range] at he
    obtain ⟨i, _, rfl⟩ := he
    rfl
  | rectangle a b c d =>
    simp only [shapeEdges, List.mem_cons, List.not_mem_nil, or_false] at he
    rcases he with rfl | rfl | rfl | rfl <;> rfl
  | circle c r =>
    simp only [shapeEdges, ringEdges, List.mem_map, List.mem_range] at he
    obtain ⟨i, _, rfl⟩ := he
    rfl

/-- `_getAllEdges` with an excluded id yields no edge of that shape. -/
lemma getAllEdges_exclude (env : MathEnv) (shapes : List (String × ShapeGeom))
    (x : String) : ∀ e ∈ getAllEdges env shapes (some x), e.shapeId ≠ x := by
  intro e he
  unfold getAllEdges at he
  simp only [List.mem_flatMap] at he
  obtain ⟨p, hp, he⟩ := he
  by_cases hx : (some x : Option String) = some p.1
  · rw [if_pos hx] at he
    exact absurd he (List.not_mem_nil e)
  · rw [if_neg hx] at he
    rw [shapeEdges_shapeId env p.1 p.2 e he]
    intro hcon
    exact hx (by rw [hcon])

/-- C4: excluding shape `x` removes all of its edges from consideration — no
edge produced by `_getAllEdges(x)` belongs to `x`, and consequently a snap
result computed with `excludeShapeId = x` (as the vertex/midpoint drag
listeners pass for their own shape) never lies on an edge of `x`. -/
theorem findSnapPoint_never_self (env : MathEnv) (x : String) :
    (∀ shapes : List (String × ShapeGeom),
      ∀ e ∈ getAllEdges env shapes (some x), e.shapeId ≠ x) ∧
    (∀ (se : SnapState) (scale : ℚ) (fromLL : Point → PixelPoint)
      (toLL : PixelPoint → Point) (cursor : Point) (res : SnapResult),
      (findSnapPoint env se scale fromLL toLL cursor (some x)).1 = some res →
      res.edge.shapeId ≠ x) := by
  refine ⟨fun shapes => getAllEdges_exclude env shapes x, ?_⟩
  intro se scale fromLL toLL cursor res h
  have hm := (findSnapPoint_some_mem env se scale fromLL toLL cursor (some x) res
    (findSnapPoint env se scale fromLL toLL cursor (some x)).2 (by rw [← h])).1
  exact getAllEdges_exclude env se.shapes x res.edge hm

/-- A concrete enabled SnapEngine state holding one triangle under id `"b"`. -/
def sampleSnapState : SnapState :=
  ⟨true, 15, [("b", .polygon triPath)]⟩

/-- The snap result the sample query returns: the cursor `(lat 0, lng 1/2)`
lies on the edge from `(0,0)` to `(0,1)` of the triangle. -/
def sampleSnapResult : SnapResult :=
  { point := ⟨0, 1/2⟩, distance := 0, edge := ⟨⟨0, 0⟩, ⟨0, 1⟩, "b"⟩, t := 1/2 }

/-- Evaluation of the sample snap query (shape id `"a"` excluded). -/
lemma sampleSnap_eval :
    (findSnapPoint sampleEnv sampleSnapState 1 pxOfGeo geoOfPx ⟨0, 1/2⟩
      (some "a")).1 = some sampleSnapResult := by
  norm_num [findSnapPoint, sampleSnapState, sampleSnapResult, getAllEdges,
    shapeEdges, ringEdges, triPath, snapStep, edgeProj, projectPointToSegment,
    toPixel, pxOfGeo, geoOfPx, sampleEnv, List.foldl, max_def, min_def]
  rw [if_neg (by decide : ¬ ("a" = "b"))]

/-- Witness for C3: the disabled engine answers `(none, 0)`, and on a
registry holding one triangle the enabled engine returns a result whose
distance is under the threshold. -/
theorem findSnapPoint_spec_witness :
    findSnapPoint sampleEnv ⟨false, 15, [("b", .polygon triPath)]⟩ 1
      pxOfGeo geoOfPx ⟨0, 1/2⟩ none = (none, 0) ∧
    sampleSnapResult.distance < sampleSnapState.threshold := by
  constructor
  · exact (findSnapPoint_spec sampleEnv ⟨false, 15, [("b", .polygon triPath)]⟩ 1
      pxOfGeo geoOfPx ⟨0, 1/2⟩ none).1 (Or.inl rfl)
  · exact ((findSnapPoint_spec sampleEnv sampleSnapState 1
      pxOfGeo geoOfPx ⟨0, 1/2⟩ (some "a")).2.2.1 sampleSnapResult sampleSnap_eval).1

/-- Witness for C4: with shape id `"a"` excluded, an edge of the registered
shape `"b"` is considered but never attributed to `"a"`, and the concrete
snap result's edge does not belong to `"a"`. -/
theorem findSnapPoint_never_self_witness :
    (⟨⟨0, 0⟩, ⟨0, 1⟩, "b"⟩ : Edge).shapeId ≠ "a" ∧
    sampleSnapResult.edge.shapeId ≠ "a" := by
  constructor
  · exact (findSnapPoint_never_self sampleEnv "a").1 [("b", .polygon triPath)] _ (by decide)
  · exact (findSnapPoint_never_self sampleEnv "a").2 sampleSnapState
      1 pxOfGeo geoOfPx ⟨0, 1/2⟩ sampleSnapResult sampleSnap_eval

/-! ### GeometryKernel theorems -/

/-- Swapping the two endpoints negates the area summand. -/
lemma areaTerm_swap (env : MathEnv) (a b : Point) :
    areaTerm env b a = -areaTerm env a b := by
  unfold areaTerm toRadians
  ring

/-- Addition of a constant modulo `n` is injective below `n`. -/
lemma add_mod_inj (n i j k : ℕ) (hi : i < n) (hj : j < n)
    (h : (i + k) % n = (j + k) % n) : i = j := by
  have hm : i % n = j % n := Nat.ModEq.add_right_cancel' k h
  rwa [Nat.mod_eq_of_lt hi, Nat.mod_eq_of_lt hj] at hm

/-- `getD` through a rotation, within bounds. -/
lemma getD_rotate (pts : List Point) (k i : ℕ) (hi : i < pts.length) :
    (pts.rotate k).getD i default = pts.getD ((i + k) % pts.length) default := by
  have hn : 0 < pts.length := by omega
  have h1 : i < (pts.rotate k).length := by
    rw [List.length_rotate]
    exact hi
  rw [List.getD_eq_getElem _ _ h1, List.getElem_rotate,
    List.getD_eq_getElem _ _ (Nat.mod_lt _ hn)]

/-- `getD` through a reversal, within bounds. -/
lemma getD_reverse (pts : List Point) (i : ℕ) (hi : i < pts.length) :
    pts.reverse.getD i default = pts.getD (pts.length - 1 - i) default := by
  have h1 : i < pts.reverse.length := by
    rw [List.length_reverse]
    exact hi
  rw [List.getD_eq_getElem _ _ h1, List.getElem_reverse,
    List.getD_eq_getElem _ _ (by omega)]

/-- The `calculatePolygonArea` accumulator is invariant under ring rotation:
the cyclic pair multiset is unchanged. -/
lemma areaSum_rotate (env : MathEnv) (pts : List Point) (k : ℕ) :
    areaSum env (pts.rotate k) = areaSum env pts := by
  rcases Nat.eq_zero_or_pos pts.length with hn | hn
  · rw [List.length_eq_zero.mp hn, List.rotate_nil]
  · unfold areaSum
    rw [List.length_rotate]
    rw [← Fin.sum_univ_eq_sum_range (fun i => areaTerm env ((pts.rotate k).getD i default)
      ((pts.rotate k).getD ((i + 1) % pts.length) default)) pts.length]
    rw [← Fin.sum_univ_eq_sum_range (fun i => areaTerm env (pts.getD i default)
      (pts.getD ((i + 1) % pts.length) default)) pts.length]
    have hbij : Function.Bijective
        (fun i : Fin pts.length => (⟨(i.val + k) % pts.length,
          Nat.mod_lt _ hn⟩ : Fin pts.length)) := by
      rw [← Finite.injective_iff_bijective]
      intro i j hij
      have := congrArg Fin.val hij
      exact Fin.ext (add_mod_inj pts.length i.val j.val k i.isLt j.isLt this)
    refine Fintype.sum_bijective _ hbij _ _ ?_
    intro i
    have hi1 : (i.val + 1) % pts.length < pts.length := Nat.mod_lt _ hn
    rw [getD_rotate pts k i.val i.isLt, getD_rotate pts k _ hi1]
    have hidx : ((i.val + 1) % pts.length + k) % pts.length
        = ((i.val + k) % pts.length + 1) % pts.length := by
      rw [Nat.mod_add_mod, Nat.mod_add_mod]
      ring_nf
    rw [hidx]

/-- The `calculatePolygonArea` accumulator is negated by ring reversal: each
directed pair flips, and `areaTerm` is antisymmetric. -/
lemma areaSum_reverse (env : MathEnv) (pts : List Point) :
    areaSum env pts.reverse = -areaSum env pts := by
  rcases Nat.eq_zero_or_pos pts.length with hn | hn
  · rw [List.length_eq_zero.mp hn]
    simp [areaSum]
  · unfold areaSum
    rw [List.length_reverse]
    rw [← Fin.sum_univ_eq_sum_range (fun i => areaTerm env (pts.reverse.getD i default)
      (pts.reverse.getD ((i + 1) % pts.length) default)) pts.length]
    rw [← Fin.sum_univ_eq_sum_range (fun i => areaTerm env (pts.getD i default)
      (pts.getD ((i + 1) % pts.length) default)) pts.length]
    rw [← Finset.sum_neg_distrib]
    have hbij : Function.Bijective
        (fun i : Fin pts.length => (⟨pts.length - 1 - ((i.val + 1) % pts.length),
          by omega⟩ : Fin pts.length)) := by
      rw [← Finite.injective_iff_bijective]
      intro i j hij
      have hv := congrArg Fin.val hij
      dsimp only at hv
      have hi1 : (i.val + 1) % pts.length < pts.length := Nat.mod_lt _ hn
      have hj1 : (j.val + 1) % pts.length < pts.length := Nat.mod_lt _ hn
      have heq : (i.val + 1) % pts.length = (j.val + 1) % pts.length := by omega
      exact Fin.ext (add_mod_inj pts.length i.val j.val 1 i.isLt j.isLt heq)
    refine Fintype.sum_bijective _ hbij _ _ ?_
    intro i
    have hi1 : (i.val + 1) % pts.length < pts.length := Nat.mod_lt _ hn
    rw [getD_reverse pts i.val i.isLt, getD_reverse pts _ hi1]
    have hidx : (pts.length - 1 - ((i.val + 1) % pts.length) + 1) % pts.length
        = pts.length - 1 - i.val := by
      rcases Nat.lt_or_ge (i.val + 1) pts.length with hlt | hge
      · rw [Nat.mod_eq_of_lt hlt]
        have : pts.length - 1 - (i.val + 1) + 1 = pts.length - 1 - i.val := by omega
        rw [this, Nat.mod_eq_of_lt (by omega)]
      · have hie : i.val + 1 = pts.length := by omega
        rw [hie, Nat.mod_self]
        have : pts.length - 1 - 0 + 1 = pts.length := by omega
        rw [this, Nat.mod_self]
        omega
    dsimp only
    rw [hidx]
    rw [areaTerm_swap env (pts.getD (pts.length - 1 - ((i.val + 1) % pts.length)) default)
      (pts.getD (pts.length - 1 - i.val) default)]

/-- C9: `calculatePolygonArea` returns 0 for every input with fewer than 3
points (including the empty list); for rings of 3 or more points its value is
invariant under cyclic rotation (any start index) and under reversal (the
absolute value is taken). -/
theorem polygonArea_spec (env : MathEnv) :
    (∀ pts : List Point, pts.length < 3 → calculatePolygonArea env pts = 0) ∧
    (∀ (pts : List Point) (k : ℕ), 3 ≤ pts.length →
      calculatePolygonArea env (pts.rotate k) = calculatePolygonArea env pts) ∧
    (∀ pts : List Point, 3 ≤ pts.length →
      calculatePolygonArea env pts.reverse = calculatePolygonArea env pts) := by
  refine ⟨?_, ?_, ?_⟩
  · intro pts h
    unfold calculatePolygonArea
    rw [if_pos h]
  · intro pts k h
    unfold calculatePolygonArea
    rw [List.length_rotate, if_neg (by omega), if_neg (by omega), areaSum_rotate]
  · intro pts h
    unfold calculatePolygonArea
    rw [List.length_reverse, if_neg (by omega), if_neg (by omega), areaSum_reverse,
      absQ_eq_abs, absQ_eq_abs,
      show -areaSum env pts * 6371000 * 6371000 / 2
        = -(areaSum env pts * 6371000 * 6371000 / 2) by ring, abs_neg]

/-- Witness for C9: the empty list, and the concrete triangle rotated by one
and reversed. -/
theorem polygonArea_spec_witness :
    calculatePolygonArea sampleEnv [] = 0 ∧
    calculatePolygonArea sampleEnv (triPath.rotate 1) = calculatePolygonArea sampleEnv triPath ∧
    calculatePolygonArea sampleEnv triPath.reverse = calculatePolygonArea sampleEnv triPath :=
  ⟨(polygonArea_spec sampleEnv).1 [] (by decide),
   (polygonArea_spec sampleEnv).2.1 triPath 1 (by decide),
   (polygonArea_spec sampleEnv).2.2 triPath (by decide)⟩

end VMD
